import Mathlib

/-!
Verification development for the dagrun task runner.

The definitions below are shallow embeddings of the relevant functions of
the repository: `src/dag.rs` (task graph and parallel levels),
`src/executor.rs` (retry loop, pipe store plumbing, parameter binding),
`src/env.rs` / `src/config.rs` (service environment variables), and
`src/k8s.rs` (job name generation).  Effectful collaborators (the actual
process/SSH/Kubernetes runners and the service manager) enter as oracle
parameters; everything the claims speak about is translated directly.
-/

namespace Dagrun

/-- Execution status of a task (executor.rs `TaskStatus`). -/
inductive TaskStatus where
  | pending
  | running
  | success
  | failed
  | skipped
deriving DecidableEq

/-- A task parameter: `(name, default?)`, `none` meaning required
(dagrun-ast semantic.rs `TaskParameter`). -/
structure TaskParameter where
  name : String
  default : Option String
deriving DecidableEq

/-- The runtime task record (dagrun-ast semantic.rs `Task`).  Fields that
only select a backend or carry I/O configuration (`ssh`, `k8s`, `service`,
`shebang`, `timeout`, `span`) are not inspected by the verified logic: the
backend run itself is abstracted as an oracle below. -/
structure Task where
  name : String
  parameters : List TaskParameter
  run : Option String
  depends_on : List String
  service_deps : List String
  pipe_from : List String
  retry : Nat
  join : Bool
deriving DecidableEq

/-- dagrun-ast semantic.rs `Task::is_join`: the explicit join flag is set or
the command body is absent. -/
def Task.is_join (t : Task) : Bool :=
  t.join || t.run.isNone

/-- Result record produced per task (executor.rs `TaskResult`). -/
structure TaskResult where
  task_name : String
  status : TaskStatus
  attempts : Nat
  output : String
deriving DecidableEq

/-- The pipe store (executor.rs `OutputStore`, a `HashMap<String, String>`):
map from task name to captured stdout. -/
def Store := String → Option String

/-- The empty store. -/
def Store.empty : Store := fun _ => none

/-- `HashMap::insert` on the pipe store. -/
def Store.insert (s : Store) (k v : String) : Store :=
  fun x => if x = k then some v else s x

/-- executor.rs `collect_pipe_inputs_from_store`: concatenate the stored
outputs of the task's `pipe_from` sources in declared order (a missing entry
contributes nothing); return `none` when `pipe_from` is empty or the
concatenation is empty. -/
def collect_pipe_inputs_from_store (t : Task) (outputs : Store) : Option String :=
  if t.pipe_from.isEmpty then none
  else
    let combined := t.pipe_from.foldl (fun acc src => acc ++ ((outputs src).getD "")) ""
    if combined.isEmpty then none else some combined

/-- How executor.rs `execute_once` wires the child's stdin: `Stdio::piped()`
when there is pipe data, `Stdio::null()` (explicitly closed) otherwise. -/
inductive StdinMode where
  | piped
  | closed
deriving DecidableEq

/-- The stdin wiring chosen by `execute_once` for given pipe data. -/
def stdin_mode (stdin_data : Option String) : StdinMode :=
  match stdin_data with
  | some _ => .piped
  | none => .closed

/-- Outcome of one invocation of the chosen backend runner (local process,
SSH, or Kubernetes) inside executor.rs `execute_once`: either
`(captured_stdout, success_flag)` of the finished command, or an error
(I/O, timeout, transport) already formatted as text.  The runner performs
I/O, so it enters the model as an oracle value. -/
def RunnerOutcome := Except String (String × Bool)

/-- Rendering of `ExecutorError::TaskFailed(name, attempts)` through its
`thiserror` format string. -/
def task_failed_msg (name : String) (attempts : Nat) : String :=
  "task \x27" ++ name ++ "\x27 failed after " ++ toString attempts ++ " attempts"

/-- executor.rs `execute_once`: a join task bypasses the runner and returns
its assembled stdin (the empty string when there is none); otherwise the
chosen backend runs and a non-success exit becomes `TaskFailed(name, 1)`. -/
def execute_once (t : Task) (stdin_data : Option String) (runner : RunnerOutcome) :
    Except String String :=
  if t.is_join then .ok (stdin_data.getD "")
  else
    match runner with
    | .error e => .error e
    | .ok (out, ok) => if ok then .ok out else .error (task_failed_msg t.name 1)

/-- Attempt-indexed oracle: the backend outcome seen by attempt `k`
(attempts are numbered from 1 as in the source). -/
def AttemptOracle := Nat → RunnerOutcome

/-- Loop of executor.rs `execute_with_retry`, by countdown on the remaining
attempts; `max_attempts = retry + 1`.  Besides the `TaskResult` it returns
the list of attempt indices actually performed (the source logs each
attempt), so that the retry bound is expressible. -/
def retry_loop (t : Task) (stdin_data : Option String) (oracle : AttemptOracle)
    (max_attempts : Nat) : Nat → String → TaskResult × List Nat
  | 0, last_err => (⟨t.name, .failed, max_attempts, last_err⟩, [])
  | Nat.succ r, _ =>
    let attempt := max_attempts - r
    match execute_once t stdin_data (oracle attempt) with
    | .ok out => (⟨t.name, .success, attempt, out⟩, [attempt])
    | .error e =>
      let tail := retry_loop t stdin_data oracle max_attempts r e
      (tail.1, attempt :: tail.2)

/-- executor.rs `execute_with_retry`: up to `retry + 1` attempts, the output
of a failed run being the formatted error of its last attempt. -/
def execute_with_retry (t : Task) (stdin_data : Option String)
    (oracle : AttemptOracle) : TaskResult × List Nat :=
  retry_loop t stdin_data oracle (t.retry + 1) (t.retry + 1) ""

/-- Oracle for `ServiceManager::acquire`: env var pairs on success, the
error text on failure. -/
def AcquireOracle := String → Except String (List (String × String))

/-- The service-acquisition loop at the top of executor.rs
`execute_sequential` / `execute_parallel`: acquire each `service_dep` in
order, merging env maps, stopping at the first failure.  Returns the merged
env and the failure text, if any. -/
def acquire_services (acq : AcquireOracle) : List String → List (String × String) × Option String
  | [] => ([], none)
  | svc :: rest =>
    match acq svc with
    | .error e => ([], some e)
    | .ok env =>
      let tail := acquire_services acq rest
      (env ++ tail.1, tail.2)

/-- Per-task body of executor.rs `execute_sequential` (the same steps are
spawned per task by `execute_parallel`): acquire the service deps; on
failure emit a `Failed` result with 0 attempts and the error text, otherwise
assemble stdin from the store and run with retry; finally — unconditionally —
insert `result.output` into the output store under the task's name.
Releasing the services touches neither the result nor the store and is
omitted. -/
def execute_task_step (t : Task) (acq : AcquireOracle) (oracle : AttemptOracle)
    (outputs : Store) : TaskResult × Store :=
  let acquired := acquire_services acq t.service_deps
  let result : TaskResult :=
    match acquired.2 with
    | some e => ⟨t.name, .failed, 0, e⟩
    | none =>
      (execute_with_retry t (collect_pipe_inputs_from_store t outputs) oracle).1
  (result, outputs.insert t.name result.output)

/-- executor.rs `execute_sequential`: run the tasks in order, stopping after
the first failed result (which is still recorded). -/
def execute_sequential (acq : AcquireOracle) (oracles : Task → AttemptOracle)
    (outputs : Store) : List Task → List TaskResult × Store
  | [] => ([], outputs)
  | t :: rest =>
    let step := execute_task_step t acq (oracles t) outputs
    if step.1.status = .failed then ([step.1], step.2)
    else
      let tail := execute_sequential acq oracles step.2 rest
      (step.1 :: tail.1, tail.2)

/-- executor.rs `Executor::execute_single`: assemble stdin from the store
and run with retry; no service acquisition and no store write happen on this
path. -/
def execute_single (t : Task) (oracle : AttemptOracle) (outputs : Store) : TaskResult :=
  (execute_with_retry t (collect_pipe_inputs_from_store t outputs) oracle).1

/-- Arity diagnostic of executor.rs `build_param_bindings` for too few
arguments: it names exactly the parameters lacking defaults. -/
def missing_args_msg (t : Task) (args : List String) : String :=
  "Task \x27" ++ t.name ++ "\x27 requires " ++
    toString ((t.parameters.filter (fun p => p.default.isNone)).length) ++
    " argument(s) (" ++
    String.intercalate ", "
      ((t.parameters.filter (fun p => p.default.isNone)).map (fun p => p.name)) ++
    ") but got " ++ toString args.length

/-- Arity diagnostic of executor.rs `build_param_bindings` for too many
arguments. -/
def too_many_args_msg (t : Task) (args : List String) : String :=
  "Task \x27" ++ t.name ++ "\x27 accepts " ++ toString t.parameters.length ++
    " argument(s) but got " ++ toString args.length

/-- Diagnostic of the binding loop when a required parameter has neither a
positional argument nor a default. -/
def missing_required_msg (pname : String) : String :=
  "Missing required argument \x27" ++ pname ++ "\x27"

/-- Binding loop of executor.rs `build_param_bindings`: the parameter at
index `i` binds `args[i]` when `i < args.len()`, else its default, else the
loop errors.  Bindings are returned in parameter order. -/
def bind_params_from (args : List String) : Nat → List TaskParameter → Except String (List (String × String))
  | _, [] => .ok []
  | i, p :: ps =>
    match args[i]? with
    | some a => (bind_params_from args (i + 1) ps).map (fun rest => (p.name, a) :: rest)
    | none =>
      match p.default with
      | some d => (bind_params_from args (i + 1) ps).map (fun rest => (p.name, d) :: rest)
      | none => .error (missing_required_msg p.name)

/-- executor.rs `build_param_bindings` (the identical logic appears as
`bind_task_parameters` in main.rs): the two arity pre-checks, then the
index-wise binding loop. -/
def build_param_bindings (t : Task) (args : List String) :
    Except String (List (String × String)) :=
  if args.length < (t.parameters.filter (fun p => p.default.isNone)).length then
    .error (missing_args_msg t args)
  else if t.parameters.length < args.length then
    .error (too_many_args_msg t args)
  else
    bind_params_from args 0 t.parameters

/-- The literal placeholder text for a parameter: `{{name}}`. -/
def param_pattern (name : String) : String :=
  "\x7b\x7b" ++ name ++ "\x7d\x7d"

/-- Value resolution of executor.rs `apply_bindings` for one parameter:
bound value, else default, else error. -/
def resolve_one (tname : String) (b : List (String × String)) (p : TaskParameter) :
    Except String String :=
  match b.lookup p.name with
  | some v => .ok v
  | none =>
    match p.default with
    | some d => .ok d
    | none =>
      .error ("Task \x27" ++ tname ++ "\x27 requires parameter \x27" ++ p.name ++
        "\x27 but it was not provided")

/-- Resolution loop of executor.rs `apply_bindings` over all parameters. -/
def resolve_all (tname : String) (b : List (String × String)) :
    List TaskParameter → Except String (List (String × String))
  | [] => .ok []
  | p :: ps =>
    match resolve_one tname b p with
    | .error e => .error e
    | .ok v => (resolve_all tname b ps).map (fun rest => (p.name, v) :: rest)

/-- executor.rs `apply_bindings`: resolve a value for every parameter and
replace each `{{name}}` occurrence in the body.  The source iterates a
`HashMap` in unspecified order; the model substitutes in parameter order,
observationally equal for the non-overlapping patterns substituted here. -/
def apply_bindings (t : Task) (b : List (String × String)) : Except String Task :=
  (resolve_all t.name b t.parameters).map (fun tb =>
    { t with run := t.run.map (fun body =>
        tb.foldl (fun acc kv => acc.replace (param_pattern kv.1) kv.2) body) })

/-- Chain loop of executor.rs `run_task_with_args`: apply the pre-built
bindings to each task of the dependency chain and run it via
`execute_single`, stopping after the first failure; a binding error on a
chain task is flattened to `TaskFailed(name, 0)`. -/
def run_chain (b : List (String × String)) (oracles : Task → AttemptOracle)
    (outputs : Store) : List Task → Except String (List TaskResult)
  | [] => .ok []
  | t :: rest =>
    match apply_bindings t b with
    | .error _ => .error (task_failed_msg t.name 0)
    | .ok bound =>
      let r := execute_single bound (oracles t) outputs
      if r.status = .failed then .ok [r]
      else (run_chain b oracles outputs rest).map (fun rs => r :: rs)

/-- executor.rs `Executor::run_task_with_args`, with the dependency chain
`execution_order_for(target)` passed in as `chain`.  An empty argument list
short-circuits to plain sequential execution of the chain; otherwise
bindings are built from the target task (a binding error being replaced by
`TaskFailed(target, 0)`) and the chain runs through `run_chain`. -/
def run_task_with_args (chain : List Task) (target : Task) (args : List String)
    (acq : AcquireOracle) (oracles : Task → AttemptOracle) (outputs : Store) :
    Except String (List TaskResult) :=
  if args.isEmpty then .ok (execute_sequential acq oracles outputs chain).1
  else
    match build_param_bindings target args with
    | .error _ => .error (task_failed_msg target.name 0)
    | .ok b => run_chain b oracles outputs chain

/-- The task graph (dag.rs `TaskGraph`): node names in insertion order plus
each task's `depends_on` list; edges run dep → task, so a node's incoming
neighbors are exactly its `depends_on` entries. -/
structure TaskGraph where
  nodes : List String
  deps : String → List String

/-- Well-formedness established by dag.rs `from_config`: node names are the
keys of a `HashMap` (hence distinct) and every `depends_on` entry resolves
to a node (`node_map[dep]` would panic otherwise). -/
structure TaskGraph.WF (g : TaskGraph) : Prop where
  nodup : g.nodes.Nodup
  deps_closed : ∀ v ∈ g.nodes, ∀ d ∈ g.deps v, d ∈ g.nodes

/-- One round of dag.rs `parallel_groups`: the not-yet-completed nodes all
of whose incoming dependencies are completed, in node order. -/
def ready_nodes (g : TaskGraph) (completed : List String) : List String :=
  g.nodes.filter (fun v =>
    decide (v ∉ completed) && (g.deps v).all (fun d => decide (d ∈ completed)))

/-- Main loop of dag.rs `parallel_groups`, with explicit fuel: each
iteration emits the ready set and marks it completed; the source loops until
the ready set is empty, which (as proved below: the emitted groups cover all
nodes) happens within `nodes.length + 1` rounds, so this fuel never
truncates. -/
def groups_loop (g : TaskGraph) : Nat → List String → List (List String)
  | 0, _ => []
  | Nat.succ fuel, completed =>
    let ready := ready_nodes g completed
    if ready.isEmpty then []
    else ready :: groups_loop g fuel (completed ++ ready)

/-- dag.rs `TaskGraph::parallel_groups` (on an acyclic graph the `Result`
is always `Ok`, so the error path is dropped). -/
def parallel_groups (g : TaskGraph) : List (List String) :=
  groups_loop g (g.nodes.length + 1) []

/-- A dependency chain, written from its final node down through successive
dependencies: `[w0, w1, …]` with every `w(i+1) ∈ deps wi` and all nodes in
the graph.  Its length (number of nodes) is the length of the dependency
chain in the usual sense. -/
def dep_chain (g : TaskGraph) : List String → Bool
  | [] => true
  | [v] => decide (v ∈ g.nodes)
  | a :: b :: l => decide (a ∈ g.nodes) && decide (b ∈ g.deps a) && dep_chain g (b :: l)

/-- A directed cycle among `task_deps` edges: a chain of length ≥ 2 whose
endpoints coincide.  dag.rs `from_config` rejects such graphs
(`is_cyclic_directed`). -/
def has_cycle (g : TaskGraph) : Prop :=
  ∃ v l, dep_chain g (v :: (l ++ [v])) = true

/-- Auxiliary for the acyclicity argument: the list
`[v, f v, f (f v), …]` with `n + 1` entries. -/
def iterate_list (f : String → String) (v : String) : Nat → List String
  | 0 => [v]
  | Nat.succ n => v :: iterate_list f (f v) n

/-- Model of a parsed `url::Url`, restricted to the well-formed http/https
URLs handled by env.rs / config.rs.  Following the WHATWG model implemented
by the url crate, a port equal to the scheme's default (80 for http, 443
for https) is never stored: `port = none` then. -/
structure Url where
  scheme : String
  host : String
  port : Option Nat
  path : String
deriving DecidableEq

/-- Default port of a scheme, as the sources spell it
(`if scheme == "https" { 443 } else { 80 }`). -/
def default_port (scheme : String) : Nat :=
  if scheme = "https" then 443 else 80

/-- Well-formedness of a parsed http/https URL: the scheme is one of the
two and, as the url crate guarantees after parsing, a stored port is never
the scheme's default. -/
structure Url.WF (u : Url) : Prop where
  scheme_ok : u.scheme = "http" ∨ u.scheme = "https"
  port_not_default : ∀ p, u.port = some p → p ≠ default_port u.scheme

/-- `Url::set_host(Some(h))`. -/
def Url.set_host (u : Url) (h : String) : Url := { u with host := h }

/-- `Url::set_port(Some(p))`: WHATWG behavior — a port equal to the
scheme's default is cleared instead of stored. -/
def Url.set_port (u : Url) (p : Nat) : Url :=
  { u with port := if p = default_port u.scheme then none else some p }

/-- `Url::set_path("")`: for special (http/https) URLs the empty path
serializes as `/`. -/
def Url.set_path_empty (u : Url) : Url := { u with path := "/" }

/-- The `:<port>` fragment of the serialization, empty when no explicit
port is stored. -/
def Url.port_suffix (u : Url) : String :=
  match u.port with
  | some p => ":" ++ toString p
  | none => ""

/-- `Url::to_string` for the http/https URLs modeled here. -/
def Url.render (u : Url) : String :=
  u.scheme ++ "://" ++ u.host ++ u.port_suffix ++ u.path

/-- `str::trim_end_matches('/')`. -/
def trim_end_slashes (s : String) : String :=
  ⟨(s.data.reverse.dropWhile (fun c => decide (c = '/'))).reverse⟩

/-- dagrun-ast `ServiceKind`. -/
inductive ServiceKind where
  | managed
  | external
deriving DecidableEq

/-- dagrun-ast `ReadinessCheck`.  The source's `Http` variant stores the URL
as a string; the model carries its parse (claims below are scoped to
readiness URLs that `Url::parse` accepts). -/
inductive ReadinessCheck where
  | http (url : Url)
  | tcp (host : String) (port : Nat)
  | command (cmd : String)
deriving DecidableEq

/-- config.rs `ReadinessCheck::host_port`: host and explicit-or-default
port for HTTP checks, the given pair for TCP checks, nothing for command
checks. -/
def ReadinessCheck.host_port : ReadinessCheck → Option (String × Nat)
  | .http u => some (u.host, u.port.getD (if u.scheme = "https" then 443 else 80))
  | .tcp host port => some (host, port)
  | .command _ => none

/-- config.rs `ReadinessCheck::base_url`: `scheme://host[:port]` for HTTP
checks (the port appears only when explicitly stored), nothing otherwise. -/
def ReadinessCheck.base_url : ReadinessCheck → Option String
  | .http u => some (u.scheme ++ "://" ++ u.host ++ u.port_suffix)
  | _ => none

/-- env.rs `service_env_vars` kind string. -/
def kind_str : ServiceKind → String
  | .managed => "managed"
  | .external => "external"

/-- The env-var name stem: `name.to_uppercase().replace('-', "_")` (ASCII
uppercasing; the service names in play are ASCII). -/
def upper_snake (s : String) : String :=
  ⟨s.data.map (fun c => if c = '-' then '_' else c.toUpper)⟩

/-- The tunneled `_URL` value computed by env.rs: re-target the parsed URL
at `127.0.0.1:<local_port>`, clear the path, serialize and trim trailing
slashes. -/
def tunneled_base (u : Url) (local_port : Nat) : String :=
  trim_end_slashes (Url.render (((u.set_host "127.0.0.1").set_port local_port).set_path_empty))

/-- env.rs `service_env_vars`: the consumer-facing environment variables of
a ready service, in insertion order (`_READY`, `_KIND`, then host/port and
URL entries depending on the readiness check and on whether a tunnel is
active). -/
def service_env_vars (name : String) (kind : ServiceKind)
    (ready : Option ReadinessCheck) (forwarded_port : Option Nat) :
    List (String × String) :=
  let pfx := "DAGRUN_SVC_" ++ upper_snake name
  let base := [(pfx ++ "_READY", "1"), (pfx ++ "_KIND", kind_str kind)]
  match ready with
  | none => base
  | some r =>
    match forwarded_port with
    | some local_port =>
      let hostport := [(pfx ++ "_HOST", "127.0.0.1"), (pfx ++ "_PORT", toString local_port)]
      match r with
      | .http u =>
        let rewritten := tunneled_base u local_port
        base ++ hostport ++ [(pfx ++ "_URL", rewritten), (pfx ++ "_BASE_URL", rewritten)]
      | _ => base ++ hostport
    | none =>
      let hostport :=
        match r.host_port with
        | some hp => [(pfx ++ "_HOST", hp.1), (pfx ++ "_PORT", toString hp.2)]
        | none => []
      let urls :=
        match r.base_url with
        | some b => [(pfx ++ "_URL", b), (pfx ++ "_BASE_URL", b)]
        | none => []
      base ++ hostport ++ urls

/-- ASCII lowercasing, as `char::to_lowercase` acts on the ASCII range
(`Char.toLower` maps exactly the ASCII uppercase letters). -/
def rust_lower_char (c : Char) : Char := c.toLower

/-- Rust `char::is_alphanumeric` (Unicode letters and numbers), modeled
exactly on the ASCII range and on the Latin-1 supplement, where the letters
are U+00C0..U+00FF except `×` (U+00D7) and `÷` (U+00F7).  Characters
outside these ranges do not occur in the theorems below. -/
def rust_is_alphanumeric (c : Char) : Bool :=
  c.isAlphanum ||
    (decide (0xC0 ≤ c.toNat) && decide (c.toNat ≤ 0xFF) &&
      decide (c.toNat ≠ 0xD7) && decide (c.toNat ≠ 0xF7))

/-- UTF-8 encoded length of one character (Rust `char::len_utf8`): 1 byte
below U+0080, 2 below U+0800, 3 below U+10000, else 4. -/
def utf8_len (c : Char) : Nat :=
  if c.toNat < 0x80 then 1
  else if c.toNat < 0x800 then 2
  else if c.toNat < 0x10000 then 3
  else 4

/-- UTF-8 byte length of a character sequence (`str::len` counts bytes). -/
def byte_len (l : List Char) : Nat := (l.map utf8_len).sum

/-- Rust byte slicing `&s[..n]`: the prefix holding exactly `n` bytes, or
`none` — a panic — when `n` is not a character boundary (or exceeds the
string). -/
def take_bytes : Nat → List Char → Option (List Char)
  | 0, _ => some []
  | _ + 1, [] => none
  | n + 1, c :: l =>
    if utf8_len c ≤ n + 1 then (take_bytes (n + 1 - utf8_len c) l).map (fun p => c :: p)
    else none

/-- `str::trim_end_matches('-')` on a character sequence. -/
def trim_trailing_dashes (l : List Char) : List Char :=
  (l.reverse.dropWhile (fun c => decide (c = '-'))).reverse

/-- `str::trim_matches('-')` on a character sequence. -/
def trim_dashes (l : List Char) : List Char :=
  trim_trailing_dashes (l.dropWhile (fun c => decide (c = '-')))

/-- The character-wise sanitization step of k8s.rs `sanitize_k8s_name`:
lowercase, then keep alphanumerics and `-`, mapping everything else
to `-`. -/
def sanitize_chars (s : List Char) : List Char :=
  s.map (fun c =>
    let lc := rust_lower_char c
    if rust_is_alphanumeric lc || decide (lc = '-') then lc else '-')

/-- k8s.rs `sanitize_k8s_name` on the input's character sequence:
lowercase, map non-alphanumerics (other than `-`) to `-`, trim outer `-`s;
when the result exceeds 50 *bytes*, slice its first 50 bytes — a panic,
modeled as `none`, when byte 50 splits a multi-byte character — and trim
trailing `-`s again. -/
def sanitize_k8s_name (s : List Char) : Option (List Char) :=
  let trimmed := trim_dashes (sanitize_chars s)
  if 50 < byte_len trimmed then
    (take_bytes 50 trimmed).map trim_trailing_dashes
  else
    some trimmed

/-- k8s.rs `generate_job_name`: `sanitize(task_name)-<suffix>`, the suffix
being six random alphanumerics lowercased (passed in as an oracle here). -/
def generate_job_name (task_name : List Char) (suffix : List Char) :
    Option (List Char) :=
  (sanitize_k8s_name task_name).map (fun s => s ++ '-' :: suffix)

/-- The sanitization as the specification words it, on characters:
lowercase, map non-alphanumerics to `-`, trim outer `-`s, truncate to at
most 50 characters (the code additionally re-trims trailing `-`s after the
cut).  Stated from the spec, for comparison with `sanitize_k8s_name`. -/
def sanitize_spec (s : List Char) : List Char :=
  let trimmed := trim_dashes (sanitize_chars s)
  if 50 < trimmed.length then trim_trailing_dashes (trimmed.take 50) else trimmed

/-- A character sequence is ASCII when every character is below U+0080
(so UTF-8 size 1). -/
def all_ascii (l : List Char) : Bool :=
  l.all (fun c => decide (c.toNat < 128))

/-! Concrete fixtures used by witnesses and counterexamples. -/

/-- Fixture: task with two pipe sources. -/
def pipe_fixture_task : Task := ⟨"collect", [], some "cat", [], [], ["a", "b"], 0, false⟩

/-- Fixture: store holding output only for source `a`. -/
def pipe_fixture_store : Store := Store.empty.insert "a" "x"

/-- Fixture: task with `retry = 2`. -/
def retry_fixture_task : Task := ⟨"w2", [], some "echo hi", [], [], [], 2, false⟩

/-- Fixture: backend oracle failing on attempt 1 and succeeding from
attempt 2 on. -/
def retry_fixture_oracle : AttemptOracle :=
  fun k => if k = 1 then .ok ("", false) else .ok ("done", true)

/-- Fixture: a join task (no command body) with one pipe source. -/
def join_fixture_task : Task := ⟨"j", [], none, [], [], ["a"], 0, false⟩

/-- Fixture: task with a service dependency. -/
def svc_fixture_task : Task := ⟨"t6", [], some "run", [], ["db"], [], 0, false⟩

/-- Fixture: acquisition oracle failing for every service. -/
def svc_fixture_acq : AcquireOracle := fun _ => .error "db boom"

/-- Fixture: acquisition oracle succeeding with no env vars. -/
def acq_ok : AcquireOracle := fun _ => .ok []

/-- Fixture: runner oracle printing `hello` and exiting non-zero. -/
def fail_after_print_oracle : AttemptOracle := fun _ => .ok ("hello\n", false)

/-- Fixture: plain local task used for the failed-store counterexample. -/
def print_fail_fixture_task : Task := ⟨"t7", [], some "sh", [], [], [], 0, false⟩

/-- Fixture: the spec's `deploy env version="latest"` task. -/
def deploy_fixture_task : Task :=
  ⟨"deploy", [⟨"env", none⟩, ⟨"version", some "latest"⟩],
    some "echo \x7b\x7benv\x7d\x7d:\x7b\x7bversion\x7d\x7d", [], [], [], 0, false⟩

/-- Fixture: per-task runner oracle that always succeeds. -/
def ok_oracles : Task → AttemptOracle := fun _ _ => .ok ("prod-run", true)

/-- Fixture: task whose defaulted parameter precedes its required one. -/
def defaults_first_fixture_task : Task :=
  ⟨"c10", [⟨"mode", some "fast"⟩, ⟨"target", none⟩], some "b", [], [], [], 0, false⟩

/-- Fixture: task with two required parameters. -/
def two_req_fixture_task : Task :=
  ⟨"copy", [⟨"src", none⟩, ⟨"dst", none⟩], some "cp", [], [], [], 0, false⟩

/-- Fixture: the diamond graph `a, b → c` of the repository's own test. -/
def diamond : TaskGraph :=
  ⟨["a", "b", "c"], fun v => if v = "c" then ["a", "b"] else []⟩

/-- Fixture: rank function witnessing the diamond's acyclicity. -/
def diamond_rank : String → Nat := fun v => if v = "c" then 1 else 0

/-- Fixture: the readiness URL `http://svc:8080/health`. -/
def health_url : Url := ⟨"http", "svc", some 8080, "/health"⟩

/-- Fixture: one ASCII letter followed by 25 copies of `é` (U+00E9, a
two-byte lowercase Unicode letter, kept by sanitization): the sanitized
name spans 51 bytes and byte 50 falls inside the final `é`. -/
def latin1_name_fixture : List Char := 'a' :: List.replicate 25 (Char.ofNat 0xE9)

/-- Fixture: an ASCII task name for the job-name witness. -/
def ascii_name_fixture : List Char := "My_Task.01".data

/-- Fixture: a six-character suffix as produced by the name generator. -/
def suffix_fixture : List Char := "a1b2c3".data

/-! Helper lemmas. -/

theorem string_foldl_append (l : List String) :
    ∀ a : String, l.foldl (· ++ ·) a = a ++ String.join l := by
  induction l with
  | nil => intro a; simp [String.join]
  | cons x l ih =>
    intro a
    simp only [List.foldl_cons, String.join]
    rw [show List.foldl (· ++ ·) (a ++ x) l = a ++ x ++ String.join l from ih (a ++ x)]
    rw [show List.foldl (· ++ ·) ("" ++ x) l = "" ++ x ++ String.join l from ih ("" ++ x)]
    simp [String.append_assoc]

theorem foldl_append_eq_join (f : String → String) (l : List String) :
    l.foldl (fun acc s => acc ++ f s) "" = String.join (l.map f) := by
  rw [← List.foldl_map, string_foldl_append]
  simp

theorem retry_loop_length (t : Task) (stdin_data : Option String)
    (oracle : AttemptOracle) (m : Nat) :
    ∀ r last_err, (retry_loop t stdin_data oracle m r last_err).2.length ≤ r := by
  intro r
  induction r with
  | zero => intro last_err; simp [retry_loop]
  | succ r ih =>
    intro last_err
    cases hE : execute_once t stdin_data (oracle (m - r)) with
    | ok out => simp [retry_loop, hE]
    | error e =>
      simp only [retry_loop, hE]
      simpa using Nat.succ_le_succ (ih e)

theorem retry_loop_success (t : Task) (stdin_data : Option String)
    (oracle : AttemptOracle) (m k : Nat) (out : String)
    (hok : execute_once t stdin_data (oracle k) = .ok out) (hkm : k ≤ m) :
    ∀ r, r ≤ m → m - r < k →
    (∀ j, m - r < j → j < k → ∃ e, execute_once t stdin_data (oracle j) = .error e) →
    ∀ last_err,
      retry_loop t stdin_data oracle m r last_err =
        (⟨t.name, .success, k, out⟩, List.range' (m - r + 1) (k - (m - r))) := by
  intro r
  induction r with
  | zero => intro _ h2 _ last_err; omega
  | succ r ih =>
    intro hrm hlt hfail last_err
    by_cases hattempt : k = m - r
    · have hok2 : execute_once t stdin_data (oracle (m - r)) = .ok out := by
        rw [← hattempt]; exact hok
      have hres : retry_loop t stdin_data oracle m (r + 1) last_err =
          (⟨t.name, .success, m - r, out⟩, [m - r]) := by
        simp [retry_loop, hok2]
      rw [hres, hattempt]
      have h1 : m - (r + 1) + 1 = m - r := by omega
      have h2 : m - r - (m - (r + 1)) = 1 := by omega
      rw [h1, h2]
      simp [List.range']
    · have hkgt : m - r < k := by omega
      obtain ⟨e, he⟩ := hfail (m - r) (by omega) hkgt
      have hres : retry_loop t stdin_data oracle m (r + 1) last_err =
          ((retry_loop t stdin_data oracle m r e).1,
            (m - r) :: (retry_loop t stdin_data oracle m r e).2) := by
        simp [retry_loop, he]
      rw [hres, ih (by omega) hkgt (fun j hj1 hj2 => hfail j (by omega) hj2) e]
      have h1 : m - (r + 1) + 1 = m - r := by omega
      have h2 : k - (m - (r + 1)) = (k - (m - r)) + 1 := by omega
      rw [h1, h2, List.range'_succ]

theorem retry_loop_all_fail (t : Task) (stdin_data : Option String)
    (oracle : AttemptOracle) (m : Nat) (errf : Nat → String) :
    ∀ r, r ≤ m →
    (∀ j, m - r < j → j ≤ m → execute_once t stdin_data (oracle j) = .error (errf j)) →
    ∀ last_err,
      retry_loop t stdin_data oracle m r last_err =
        (⟨t.name, .failed, m, if r = 0 then last_err else errf m⟩,
          List.range' (m - r + 1) r) := by
  intro r
  induction r with
  | zero => intro _ _ last_err; simp [retry_loop, List.range']
  | succ r ih =>
    intro hrm hfail last_err
    have he : execute_once t stdin_data (oracle (m - r)) = .error (errf (m - r)) :=
      hfail _ (by omega) (by omega)
    have hres : retry_loop t stdin_data oracle m (r + 1) last_err =
        ((retry_loop t stdin_data oracle m r (errf (m - r))).1,
          (m - r) :: (retry_loop t stdin_data oracle m r (errf (m - r))).2) := by
      simp [retry_loop, he]
    rw [hres, ih (by omega) (fun j hj1 hj2 => hfail j (by omega) hj2) (errf (m - r))]
    have hout : (if r = 0 then errf (m - r) else errf m) = errf m := by
      cases r with
      | zero => simp
      | succ r => simp
    have h1 : m - (r + 1) + 1 = m - r := by omega
    rw [hout, h1, List.range'_succ]
    simp

/-! Claim theorems. -/

/-- C3: for a task with non-empty `pipe_sources`, the assembled stdin equals
the concatenation of the stored outputs of its sources in declared order,
missing entries contributing empty strings; and when the combined stdin is
empty the task's stdin is explicitly closed (`Stdio::null()`), not left
open as a pipe. -/
theorem pipe_stdin_concatenation (t : Task) (outputs : Store)
    (h : t.pipe_from ≠ []) :
    (collect_pipe_inputs_from_store t outputs).getD "" =
      String.join (t.pipe_from.map (fun src => (outputs src).getD ""))
    ∧ (String.join (t.pipe_from.map (fun src => (outputs src).getD "")) = "" →
        stdin_mode (collect_pipe_inputs_from_store t outputs) = .closed) := by
  have hne : t.pipe_from.isEmpty = false := by
    simpa [List.isEmpty_iff] using h
  have hfold : t.pipe_from.foldl (fun acc src => acc ++ ((outputs src).getD "")) "" =
      String.join (t.pipe_from.map (fun src => (outputs src).getD "")) :=
    foldl_append_eq_join _ _
  by_cases hj : String.join (t.pipe_from.map (fun src => (outputs src).getD "")) = ""
  · have hcoll : collect_pipe_inputs_from_store t outputs = none := by
      unfold collect_pipe_inputs_from_store
      simp [hne, hfold, hj, String.isEmpty_iff]
    refine ⟨?_, fun _ => by simp [hcoll, stdin_mode]⟩
    simp [hcoll, hj]
  · have hcoll : collect_pipe_inputs_from_store t outputs =
        some (String.join (t.pipe_from.map (fun src => (outputs src).getD ""))) := by
      unfold collect_pipe_inputs_from_store
      simp [hne, hfold, hj, String.isEmpty_iff]
    exact ⟨by simp [hcoll], fun hc => absurd hc hj⟩

/-- Witness for C3 at the two-source fixture with one missing entry. -/
theorem pipe_stdin_concatenation_witness :
    pipe_fixture_task.pipe_from ≠ []
    ∧ (collect_pipe_inputs_from_store pipe_fixture_task pipe_fixture_store).getD "" =
        String.join (pipe_fixture_task.pipe_from.map
          (fun src => (pipe_fixture_store src).getD "")) :=
  ⟨by decide, (pipe_stdin_concatenation pipe_fixture_task pipe_fixture_store (by decide)).1⟩

/-- C2: a task is attempted at most `retry + 1` times; a run whose attempt
`k` succeeds (all earlier attempts failing) yields `(Success, attempts = k,
output)` and performs exactly attempts `1..k` — in particular no attempt
`k + 1`; a run whose every attempt fails yields `(Failed, attempts =
retry + 1, last_error_text)`. -/
theorem execute_with_retry_bound (t : Task) (stdin_data : Option String)
    (oracle : AttemptOracle) :
    (execute_with_retry t stdin_data oracle).2.length ≤ t.retry + 1
    ∧ (∀ k out, 1 ≤ k → k ≤ t.retry + 1 →
        execute_once t stdin_data (oracle k) = .ok out →
        (∀ j, 1 ≤ j → j < k → ∃ e, execute_once t stdin_data (oracle j) = .error e) →
        (execute_with_retry t stdin_data oracle).1 = ⟨t.name, .success, k, out⟩
        ∧ (execute_with_retry t stdin_data oracle).2 = List.range' 1 k
        ∧ k + 1 ∉ (execute_with_retry t stdin_data oracle).2)
    ∧ (∀ errf : Nat → String,
        (∀ j, 1 ≤ j → j ≤ t.retry + 1 →
          execute_once t stdin_data (oracle j) = .error (errf j)) →
        (execute_with_retry t stdin_data oracle).1 =
          ⟨t.name, .failed, t.retry + 1, errf (t.retry + 1)⟩
        ∧ (execute_with_retry t stdin_data oracle).2 = List.range' 1 (t.retry + 1)) := by
  refine ⟨retry_loop_length t stdin_data oracle (t.retry + 1) (t.retry + 1) "", ?_, ?_⟩
  · intro k out hk1 hk2 hok hfail
    have h := retry_loop_success t stdin_data oracle (t.retry + 1) k out hok hk2
      (t.retry + 1) le_rfl (by omega)
      (fun j hj1 hj2 => hfail j (by omega) hj2) ""
    rw [Nat.sub_self] at h
    simp only [Nat.zero_add, Nat.sub_zero] at h
    unfold execute_with_retry
    rw [h]
    refine ⟨rfl, rfl, ?_⟩
    simp only [List.mem_range'_1, not_and, not_lt]
    omega
  · intro errf hfail
    have h := retry_loop_all_fail t stdin_data oracle (t.retry + 1) errf
      (t.retry + 1) le_rfl (fun j hj1 hj2 => hfail j (by omega) hj2) ""
    rw [Nat.sub_self] at h
    simp only [Nat.zero_add] at h
    unfold execute_with_retry
    rw [h]
    exact ⟨by simp, rfl⟩

/-- Witness for C2: with `retry = 2`, attempt 1 failing and attempt 2
succeeding, the result is `(Success, 2, "done")` and exactly attempts
`[1, 2]` run. -/
theorem execute_with_retry_bound_witness :
    (execute_with_retry retry_fixture_task none retry_fixture_oracle).1 =
      ⟨"w2", .success, 2, "done"⟩
    ∧ (execute_with_retry retry_fixture_task none retry_fixture_oracle).2 =
        List.range' 1 2 := by
  have h := (execute_with_retry_bound retry_fixture_task none retry_fixture_oracle).2.1
    2 "done" (by omega) (by decide) rfl
    (by
      intro j hj1 hj2
      have hj : j = 1 := by omega
      subst hj
      exact ⟨task_failed_msg "w2" 1, rfl⟩)
  exact ⟨h.1, h.2.1⟩

/-- C4: `is_join` holds exactly when the explicit flag is set or the command
body is absent; a join task's execution bypasses the runner — `execute_once`
returns the assembled stdin for any runner outcome, the retried execution
always succeeds on attempt 1 with output equal to the stdin (empty string
when there is no pipe input), and the executor stores that stdin under the
task's name. -/
theorem join_task_passthrough (t : Task) (h : t.is_join = true) :
    t.is_join = (t.join || t.run.isNone)
    ∧ (∀ stdin_data runner, execute_once t stdin_data runner = .ok (stdin_data.getD ""))
    ∧ (∀ stdin_data oracle,
        execute_with_retry t stdin_data oracle =
          (⟨t.name, .success, 1, stdin_data.getD ""⟩, [1]))
    ∧ (∀ acq oracle outputs, (acquire_services acq t.service_deps).2 = none →
        execute_task_step t acq oracle outputs =
          (⟨t.name, .success, 1, (collect_pipe_inputs_from_store t outputs).getD ""⟩,
            outputs.insert t.name ((collect_pipe_inputs_from_store t outputs).getD ""))) := by
  have honce : ∀ (stdin_data : Option String) (runner : RunnerOutcome),
      execute_once t stdin_data runner = .ok (stdin_data.getD "") := by
    intro s r
    simp [execute_once, h]
  have hretry : ∀ (s : Option String) (o : AttemptOracle),
      execute_with_retry t s o = (⟨t.name, .success, 1, s.getD ""⟩, [1]) := by
    intro s o
    unfold execute_with_retry
    have : t.retry + 1 - t.retry = 1 := by omega
    simp [retry_loop, honce, this]
  refine ⟨rfl, honce, hretry, ?_⟩
  intro acq oracle outputs hacq
  simp only [execute_task_step, hacq, hretry]

/-- Witness for C4 at a join task receiving piped data. -/
theorem join_task_passthrough_witness :
    join_fixture_task.is_join = true
    ∧ execute_with_retry join_fixture_task (some "data") retry_fixture_oracle =
        (⟨"j", .success, 1, "data"⟩, [1]) :=
  ⟨rfl, (join_task_passthrough join_fixture_task rfl).2.2.1 (some "data") retry_fixture_oracle⟩

/-- C6 (amended): when acquisition of a service dependency fails, the
executor emits a Failed result with 0 attempts carrying the acquisition
error, without invoking the runner (the step is the same for every runner
oracle) — but, contrary to the claim's last part, an entry IS written into
the pipe store: the task's name maps to the error text. -/
theorem service_failure_skips_runner_but_stores (t : Task) (acq : AcquireOracle)
    (e : String) (hfail : (acquire_services acq t.service_deps).2 = some e)
    (oracle : AttemptOracle) (outputs : Store) :
    (execute_task_step t acq oracle outputs).1 = ⟨t.name, .failed, 0, e⟩
    ∧ (∀ oracle2, execute_task_step t acq oracle2 outputs =
        execute_task_step t acq oracle outputs)
    ∧ (execute_task_step t acq oracle outputs).2 t.name = some e := by
  have hstep : ∀ o : AttemptOracle, execute_task_step t acq o outputs =
      (⟨t.name, .failed, 0, e⟩, outputs.insert t.name e) := by
    intro o
    simp only [execute_task_step, hfail]
  refine ⟨by rw [hstep], fun o2 => by rw [hstep, hstep], ?_⟩
  rw [hstep]
  simp [Store.insert]

/-- Witness for C6 at a task whose only service dependency fails to
acquire. -/
theorem service_failure_skips_runner_witness :
    (acquire_services svc_fixture_acq svc_fixture_task.service_deps).2 = some "db boom"
    ∧ (execute_task_step svc_fixture_task svc_fixture_acq fail_after_print_oracle Store.empty).1 =
        ⟨"t6", .failed, 0, "db boom"⟩ :=
  ⟨rfl, (service_failure_skips_runner_but_stores svc_fixture_task svc_fixture_acq
      "db boom" rfl fail_after_print_oracle Store.empty).1⟩

/-- Counterexample to C6 as stated: after the failed acquisition the pipe
store DOES hold an entry for the task (the acquisition error), where the
claim demands that no entry be written. -/
theorem service_failure_store_counterexample :
    (execute_task_step svc_fixture_task svc_fixture_acq fail_after_print_oracle
        Store.empty).2 "t6" = some "db boom"
    ∧ Store.empty "t6" = none :=
  ⟨rfl, rfl⟩

/-- C7 (amended): after a task completes, the value stored in the pipe
store under its name is `result.output` — the captured stdout when the task
succeeded, but the formatted error of the final attempt when it failed; the
captured stdout of a failed task is discarded. -/
theorem store_entry_is_result_output (t : Task) (acq : AcquireOracle)
    (oracle : AttemptOracle) (outputs : Store)
    (hacq : (acquire_services acq t.service_deps).2 = none) :
    (execute_task_step t acq oracle outputs).2 t.name =
      some (execute_task_step t acq oracle outputs).1.output
    ∧ (∀ k out, 1 ≤ k → k ≤ t.retry + 1 →
        execute_once t (collect_pipe_inputs_from_store t outputs) (oracle k) = .ok out →
        (∀ j, 1 ≤ j → j < k → ∃ e,
          execute_once t (collect_pipe_inputs_from_store t outputs) (oracle j) = .error e) →
        (execute_task_step t acq oracle outputs).1.output = out)
    ∧ (∀ errf : Nat → String,
        (∀ j, 1 ≤ j → j ≤ t.retry + 1 →
          execute_once t (collect_pipe_inputs_from_store t outputs) (oracle j) =
            .error (errf j)) →
        (execute_task_step t acq oracle outputs).1.output = errf (t.retry + 1)) := by
  have hstep : execute_task_step t acq oracle outputs =
      ((execute_with_retry t (collect_pipe_inputs_from_store t outputs) oracle).1,
        outputs.insert t.name
          (execute_with_retry t (collect_pipe_inputs_from_store t outputs) oracle).1.output) := by
    simp only [execute_task_step, hacq]
  refine ⟨by rw [hstep]; simp [Store.insert], ?_, ?_⟩
  · intro k out hk1 hk2 hok hfail
    have h := retry_loop_success t (collect_pipe_inputs_from_store t outputs) oracle
      (t.retry + 1) k out hok hk2 (t.retry + 1) le_rfl (by omega)
      (fun j hj1 hj2 => hfail j (by omega) hj2) ""
    rw [hstep]
    unfold execute_with_retry
    rw [h]
  · intro errf hfail
    have h := retry_loop_all_fail t (collect_pipe_inputs_from_store t outputs) oracle
      (t.retry + 1) errf (t.retry + 1) le_rfl
      (fun j hj1 hj2 => hfail j (by omega) hj2) ""
    rw [hstep]
    unfold execute_with_retry
    rw [h]
    simp

/-- Witness for C7: the stored entry equals the result's output field. -/
theorem store_entry_is_result_output_witness :
    (acquire_services acq_ok print_fail_fixture_task.service_deps).2 = none
    ∧ (execute_task_step print_fail_fixture_task acq_ok fail_after_print_oracle
          Store.empty).2 "t7" =
        some (execute_task_step print_fail_fixture_task acq_ok fail_after_print_oracle
          Store.empty).1.output :=
  ⟨rfl, (store_entry_is_result_output print_fail_fixture_task acq_ok
      fail_after_print_oracle Store.empty rfl).1⟩

/-- Counterexample to C7 as stated: a task that prints `hello` and exits
non-zero has the formatted failure text stored under its name — not its
captured stdout. -/
theorem store_entry_counterexample :
    (execute_task_step print_fail_fixture_task acq_ok fail_after_print_oracle
        Store.empty).2 "t7" = some (task_failed_msg "t7" 1)
    ∧ (execute_task_step print_fail_fixture_task acq_ok fail_after_print_oracle
        Store.empty).2 "t7" ≠ some "hello\n" := by
  exact ⟨rfl, by decide⟩

theorem bind_params_from_loop (args : List String) :
    ∀ (ps : List TaskParameter) (j : Nat) (b : List (String × String)),
      bind_params_from args j ps = .ok b →
      ∀ i (h1 : i < ps.length), j + i < args.length →
        ∃ v, args[j + i]? = some v ∧ b[i]? = some ((ps.get ⟨i, h1⟩).name, v) := by
  intro ps
  induction ps with
  | nil =>
    intro j b hb i h1
    simp at h1
  | cons p ps ih =>
    intro j b hb i h1 h2
    have hjlen : j < args.length := by omega
    obtain ⟨a, ha⟩ : ∃ a, args[j]? = some a :=
      ⟨args.get ⟨j, hjlen⟩, by simp [List.getElem?_eq_getElem hjlen, List.get_eq_getElem]⟩
    simp only [bind_params_from, ha] at hb
    cases hrec : bind_params_from args (j + 1) ps with
    | error e => rw [hrec] at hb; simp [Except.map] at hb
    | ok rest =>
      rw [hrec] at hb
      simp only [Except.map, Except.ok.injEq] at hb
      subst hb
      rcases i with _ | i2
      · refine ⟨a, ?_, ?_⟩
        · rw [Nat.add_zero]; exact ha
        · simp
      · obtain ⟨v, hv1, hv2⟩ := ih (j + 1) rest hrec i2 (by simpa using h1) (by omega)
        refine ⟨v, ?_, ?_⟩
        · rw [show j + (i2 + 1) = j + 1 + i2 by omega]; exact hv1
        · simpa using hv2

/-- C10: positional arguments bind strictly by index — the i-th argument
binds to the i-th declared parameter regardless of which parameters carry
defaults; consequently a task whose defaulted parameter precedes its
required one rejects an argument list whose length equals the number of
required parameters with a `Missing required argument` error, although both
arity pre-checks pass (the list is neither shorter than the required count
nor longer than the parameter count). -/
theorem bind_params_by_index :
    (∀ (t : Task) (args : List String) (b : List (String × String)),
      build_param_bindings t args = .ok b →
      ∀ i (h1 : i < t.parameters.length) (h2 : i < args.length),
        b[i]? = some ((t.parameters.get ⟨i, h1⟩).name, args.get ⟨i, h2⟩))
    ∧ build_param_bindings defaults_first_fixture_task ["x"] =
        .error (missing_required_msg "target")
    ∧ (["x"] : List String).length =
        (defaults_first_fixture_task.parameters.filter (fun p => p.default.isNone)).length := by
  refine ⟨?_, rfl, rfl⟩
  intro t args b hb i h1 h2
  have hb2 : bind_params_from args 0 t.parameters = .ok b := by
    unfold build_param_bindings at hb
    split at hb
    · simp at hb
    · split at hb
      · simp at hb
      · exact hb
  obtain ⟨v, hv1, hv2⟩ := bind_params_from_loop args t.parameters 0 b hb2 i h1 (by omega)
  rw [show (0 : Nat) + i = i by omega] at hv1
  have hget : args[i]? = some (args.get ⟨i, h2⟩) := by
    simp [List.getElem?_eq_getElem h2, List.get_eq_getElem]
  rw [hget] at hv1
  injection hv1 with hv
  subst hv
  exact hv2

/-- Witness for C10: with both parameters supplied, each argument binds to
the parameter at its own index. -/
theorem bind_params_by_index_witness :
    build_param_bindings deploy_fixture_task ["prod", "v2"] =
      .ok [("env", "prod"), ("version", "v2")]
    ∧ ([(("env" : String), ("prod" : String)), ("version", "v2")])[0]? =
        some ("env", "prod") :=
  ⟨rfl, bind_params_by_index.1 deploy_fixture_task ["prod", "v2"]
      [("env", "prod"), ("version", "v2")] rfl 0 (by decide) (by decide)⟩

/-- C5 (amended): for a NON-EMPTY argument list shorter than the number of
required parameters, `run_task_with_args` fails before any task body
executes — `build_param_bindings` produces the diagnostic naming the
missing parameters, though `run_task_with_args` itself discards it for a
generic `TaskFailed(target, 0)` error; the EMPTY argument list, by
contrast, bypasses the arity check entirely and the chain executes
normally. -/
theorem run_task_with_args_arity (chain : List Task) (target : Task)
    (args : List String) (acq : AcquireOracle) (oracles : Task → AttemptOracle)
    (outputs : Store) (hne : args ≠ [])
    (hshort : args.length <
      (target.parameters.filter (fun p => p.default.isNone)).length) :
    run_task_with_args chain target args acq oracles outputs =
      .error (task_failed_msg target.name 0)
    ∧ build_param_bindings target args = .error (missing_args_msg target args)
    ∧ run_task_with_args chain target [] acq oracles outputs =
        .ok (execute_sequential acq oracles outputs chain).1 := by
  have hbuild : build_param_bindings target args = .error (missing_args_msg target args) := by
    unfold build_param_bindings
    rw [if_pos hshort]
  have hne2 : args.isEmpty = false := by simpa [List.isEmpty_iff] using hne
  refine ⟨?_, hbuild, rfl⟩
  simp [run_task_with_args, hne2, hbuild]

/-- Witness for C5 at a task requiring two arguments, given one. -/
theorem run_task_with_args_arity_witness :
    (["x"] : List String).length <
      (two_req_fixture_task.parameters.filter (fun p => p.default.isNone)).length
    ∧ run_task_with_args [two_req_fixture_task] two_req_fixture_task ["x"]
        acq_ok ok_oracles Store.empty = .error (task_failed_msg "copy" 0) :=
  ⟨by decide, (run_task_with_args_arity [two_req_fixture_task] two_req_fixture_task
      ["x"] acq_ok ok_oracles Store.empty (by decide) (by decide)).1⟩

/-- Counterexample to C5 as stated: invoking `deploy` (one required
parameter `env`) with the EMPTY argument list does not fail with an arity
diagnostic — the binder is bypassed and the task body executes,
succeeding. -/
theorem run_task_with_args_empty_counterexample :
    run_task_with_args [deploy_fixture_task] deploy_fixture_task [] acq_ok
      ok_oracles Store.empty = .ok [⟨"deploy", .success, 1, "prod-run"⟩] := rfl

/-! Graph lemmas for C1. -/

theorem mem_ready_nodes {g : TaskGraph} {completed : List String} {v : String} :
    v ∈ ready_nodes g completed ↔
      v ∈ g.nodes ∧ v ∉ completed ∧ ∀ d ∈ g.deps v, d ∈ completed := by
  simp [ready_nodes, List.mem_filter, List.all_eq_true, and_assoc]

theorem dep_chain_rank (g : TaskGraph) (rank : String → Nat)
    (hrank : ∀ v ∈ g.nodes, ∀ d ∈ g.deps v, rank d < rank v) :
    ∀ (l : List String) (a z : String),
      dep_chain g (a :: (l ++ [z])) = true → rank z < rank a := by
  intro l
  induction l with
  | nil =>
    intro a z h
    simp only [List.nil_append, dep_chain, Bool.and_eq_true, decide_eq_true_eq] at h
    exact hrank a h.1.1 z h.1.2
  | cons c l ih =>
    intro a z h
    simp only [List.cons_append, dep_chain, Bool.and_eq_true, decide_eq_true_eq] at h
    exact lt_trans (ih c z h.2) (hrank a h.1.1 c h.1.2)

/-- A strictly decreasing rank along dependency edges rules out cycles;
used to certify acyclicity of concrete graphs. -/
theorem rank_acyclic (g : TaskGraph) (rank : String → Nat)
    (hrank : ∀ v ∈ g.nodes, ∀ d ∈ g.deps v, rank d < rank v) :
    ¬ has_cycle g := by
  rintro ⟨v, l, hchain⟩
  exact absurd (dep_chain_rank g rank hrank l v v hchain) (lt_irrefl _)

theorem iterate_list_length (f : String → String) :
    ∀ (n : Nat) (v : String), (iterate_list f v n).length = n + 1 := by
  intro n
  induction n with
  | zero => intro v; simp [iterate_list]
  | succ n ih => intro v; simp [iterate_list, ih (f v)]

theorem iterate_list_shape (f : String → String) :
    ∀ (n : Nat) (v : String), ∃ l, iterate_list f v n = l ++ [f^[n] v] := by
  intro n
  induction n with
  | zero => intro v; exact ⟨[], by simp [iterate_list]⟩
  | succ n ih =>
    intro v
    obtain ⟨l, hl⟩ := ih (f v)
    refine ⟨v :: l, ?_⟩
    simp [iterate_list, hl, Function.iterate_succ_apply]

theorem iterate_mem (S : List String) (f : String → String)
    (hf : ∀ w ∈ S, f w ∈ S) (v : String) (hv : v ∈ S) :
    ∀ n, f^[n] v ∈ S := by
  intro n
  induction n with
  | zero => simpa
  | succ n ih => rw [Function.iterate_succ_apply']; exact hf _ ih

theorem iterate_list_chain (g : TaskGraph) (S : List String)
    (f : String → String) (hf : ∀ w ∈ S, f w ∈ g.deps w ∧ f w ∈ S)
    (hS : ∀ w ∈ S, w ∈ g.nodes) :
    ∀ (n : Nat) (v : String), v ∈ S → dep_chain g (iterate_list f v n) = true := by
  intro n
  induction n with
  | zero => intro v hv; simp [iterate_list, dep_chain, hS v hv]
  | succ n ih =>
    intro v hv
    have hfv := hf v hv
    have hrest := ih (f v) hfv.2
    cases n with
    | zero =>
      simp [iterate_list, dep_chain, hS v hv, hfv.1, hS _ hfv.2]
    | succ m =>
      simp only [iterate_list] at hrest ⊢
      simp only [dep_chain, Bool.and_eq_true, decide_eq_true_eq]
      exact ⟨⟨hS v hv, hfv.1⟩, hrest⟩

theorem cycle_of_iterate (g : TaskGraph) (S : List String) (f : String → String)
    (hf : ∀ w ∈ S, f w ∈ g.deps w ∧ f w ∈ S) (hsub : ∀ w ∈ S, w ∈ g.nodes)
    (v0 : String) (hv0 : v0 ∈ S) (i j : Nat) (hij : i < j)
    (heq : f^[i] v0 = f^[j] v0) : has_cycle g := by
  have humem : f^[i] v0 ∈ S := iterate_mem S f (fun w hw => (hf w hw).2) v0 hv0 i
  have hfd : f^[j - i] (f^[i] v0) = f^[i] v0 := by
    rw [← Function.iterate_add_apply, show j - i + i = j by omega, ← heq]
  have hchain : dep_chain g (iterate_list f (f^[i] v0) (j - i)) = true :=
    iterate_list_chain g S f hf hsub (j - i) (f^[i] v0) humem
  obtain ⟨l, hl⟩ := iterate_list_shape f (j - i) (f^[i] v0)
  rw [hfd] at hl
  cases l with
  | nil =>
    exfalso
    have hlen := iterate_list_length f (j - i) (f^[i] v0)
    rw [hl] at hlen
    simp at hlen
    omega
  | cons a l2 =>
    obtain ⟨d2, hd2⟩ : ∃ d2, j - i = d2 + 1 := ⟨j - i - 1, by omega⟩
    have hshape2 : iterate_list f (f^[i] v0) (j - i) =
        f^[i] v0 :: iterate_list f (f (f^[i] v0)) d2 := by
      rw [hd2]; rfl
    have hl2 := hl
    rw [hshape2] at hl2
    injection hl2 with hhead _
    rw [← hhead] at hl
    rw [hl] at hchain
    exact ⟨f^[i] v0, l2, hchain⟩

/-- In a cycle-free graph, every non-empty set of nodes contains a node
none of whose dependencies lies in the set (a "source" of that set): this
is what lets every round of `parallel_groups` make progress. -/
theorem exists_source (g : TaskGraph) (hacy : ¬ has_cycle g) (S : List String)
    (hsub : ∀ w ∈ S, w ∈ g.nodes) (hne : S ≠ []) :
    ∃ v ∈ S, ∀ d ∈ g.deps v, d ∉ S := by
  by_contra hcon
  push_neg at hcon
  set f : String → String :=
    fun w => ((g.deps w).find? (fun d => decide (d ∈ S))).getD w with hfdef
  have hf : ∀ w ∈ S, f w ∈ g.deps w ∧ f w ∈ S := by
    intro w hw
    obtain ⟨d, hd1, hd2⟩ := hcon w hw
    have hsome : ((g.deps w).find? (fun d => decide (d ∈ S))).isSome := by
      rw [List.find?_isSome]
      exact ⟨d, hd1, by simpa⟩
    obtain ⟨d0, hd0⟩ := Option.isSome_iff_exists.mp hsome
    have hmem := List.mem_of_find?_eq_some hd0
    have hp := List.find?_some hd0
    simp only [decide_eq_true_eq] at hp
    exact ⟨by simpa [hfdef, hd0] using hmem, by simpa [hfdef, hd0] using hp⟩
  obtain ⟨v0, hv0⟩ := List.exists_mem_of_ne_nil S hne
  have hiter : ∀ n, f^[n] v0 ∈ S := iterate_mem S f (fun w hw => (hf w hw).2) v0 hv0
  have hcard : (S.toFinset).card < (Finset.range (S.length + 1)).card := by
    simpa using Nat.lt_succ_of_le (List.toFinset_card_le S)
  obtain ⟨i, _, j, _, hij, heq⟩ :=
    Finset.exists_ne_map_eq_of_card_lt_of_maps_to hcard
      (fun n _ => List.mem_toFinset.mpr (hiter n))
  rcases Nat.lt_or_ge i j with hlt | hge
  · exact hacy (cycle_of_iterate g S f hf hsub v0 hv0 i j hlt heq)
  · have hlt2 : j < i := by omega
    exact hacy (cycle_of_iterate g S f hf hsub v0 hv0 j i hlt2 heq.symm)

theorem groups_loop_join_mem (g : TaskGraph) :
    ∀ (fuel : Nat) (completed : List String) (v : String),
      v ∈ (groups_loop g fuel completed).flatten → v ∈ g.nodes ∧ v ∉ completed := by
  intro fuel
  induction fuel with
  | zero => intro completed v hv; simp [groups_loop] at hv
  | succ fuel ih =>
    intro completed v hv
    cases hready : (ready_nodes g completed).isEmpty with
    | true => simp [groups_loop, hready] at hv
    | false =>
      simp only [groups_loop, hready, Bool.false_eq_true, if_false,
        List.flatten_cons, List.mem_append] at hv
      rcases hv with h | h
      · have := mem_ready_nodes.mp h
        exact ⟨this.1, this.2.1⟩
      · have := ih (completed ++ ready_nodes g completed) v h
        exact ⟨this.1, fun hc => this.2 (List.mem_append_left _ hc)⟩

theorem groups_loop_join_nodup (g : TaskGraph) (hn : g.nodes.Nodup) :
    ∀ (fuel : Nat) (completed : List String),
      (groups_loop g fuel completed).flatten.Nodup := by
  intro fuel
  induction fuel with
  | zero => intro completed; simp [groups_loop]
  | succ fuel ih =>
    intro completed
    cases hready : (ready_nodes g completed).isEmpty with
    | true => simp [groups_loop, hready]
    | false =>
      simp only [groups_loop, hready, Bool.false_eq_true, if_false, List.flatten_cons]
      refine List.Nodup.append (List.Nodup.filter _ hn) (ih _) ?_
      intro x hx1 hx2
      exact (groups_loop_join_mem g fuel (completed ++ ready_nodes g completed) x hx2).2
        (List.mem_append_right _ hx1)

theorem groups_loop_covers (g : TaskGraph) (hwf : g.WF) (hacy : ¬ has_cycle g) :
    ∀ (fuel : Nat) (completed : List String),
      completed.Nodup → (∀ w ∈ completed, w ∈ g.nodes) →
      g.nodes.length < completed.length + fuel →
      ∀ v ∈ g.nodes, v ∉ completed → v ∈ (groups_loop g fuel completed).flatten := by
  intro fuel
  induction fuel with
  | zero =>
    intro completed hnd hsub hlen v hv hvc
    exfalso
    have hle := List.Subperm.length_le (List.subperm_of_subset hnd hsub)
    omega
  | succ fuel ih =>
    intro completed hnd hsub hlen v hv hvc
    cases hready : (ready_nodes g completed).isEmpty with
    | true =>
      exfalso
      have hSne : g.nodes.filter (fun w => decide (w ∉ completed)) ≠ [] := by
        intro hnil
        have hvS : v ∈ g.nodes.filter (fun w => decide (w ∉ completed)) := by
          simp [List.mem_filter, hv, hvc]
        rw [hnil] at hvS
        simp at hvS
      obtain ⟨w, hw1, hw2⟩ := exists_source g hacy _
        (fun w hw => (List.mem_filter.mp hw).1) hSne
      have hw3 := List.mem_filter.mp hw1
      simp only [decide_eq_true_eq] at hw3
      have hwready : w ∈ ready_nodes g completed := by
        rw [mem_ready_nodes]
        refine ⟨hw3.1, hw3.2, ?_⟩
        intro d hd
        by_contra hdc
        exact hw2 d hd (by
          simp only [List.mem_filter, decide_eq_true_eq]
          exact ⟨hwf.deps_closed w hw3.1 d hd, hdc⟩)
      rw [List.isEmpty_iff] at hready
      rw [hready] at hwready
      simp at hwready
    | false =>
      have hreadyne : ready_nodes g completed ≠ [] := by
        intro h0
        rw [h0] at hready
        simp at hready
      simp only [groups_loop, hready, Bool.false_eq_true, if_false, List.flatten_cons]
      by_cases hvr : v ∈ ready_nodes g completed
      · exact List.mem_append_left _ hvr
      · refine List.mem_append_right _
          (ih (completed ++ ready_nodes g completed) ?_ ?_ ?_ v hv ?_)
        · refine List.Nodup.append hnd (List.Nodup.filter _ hwf.nodup) ?_
          intro x hx1 hx2
          exact (mem_ready_nodes.mp hx2).2.1 hx1
        · intro w hw
          rcases List.mem_append.mp hw with h | h
          · exact hsub w h
          · exact (mem_ready_nodes.mp h).1
        · have h1 : 1 ≤ (ready_nodes g completed).length := by
            cases hr : ready_nodes g completed with
            | nil => exact absurd hr hreadyne
            | cons a l => simp
          rw [List.length_append]
          omega
        · intro hmem
          rcases List.mem_append.mp hmem with h | h
          · exact hvc h
          · exact hvr h

theorem groups_loop_deps_earlier (g : TaskGraph) :
    ∀ (fuel : Nat) (completed : List String) (i : Nat) (v : String),
      v ∈ (groups_loop g fuel completed).getD i [] →
      ∀ d ∈ g.deps v, d ∈ completed ∨
        ∃ j < i, d ∈ (groups_loop g fuel completed).getD j [] := by
  intro fuel
  induction fuel with
  | zero => intro completed i v hv; simp [groups_loop] at hv
  | succ fuel ih =>
    intro completed i v hv d hd
    cases hready : (ready_nodes g completed).isEmpty with
    | true => exfalso; simp [groups_loop, hready] at hv
    | false =>
      simp only [groups_loop, hready, Bool.false_eq_true, if_false] at hv ⊢
      cases i with
      | zero =>
        rw [List.getD_cons_zero] at hv
        exact Or.inl ((mem_ready_nodes.mp hv).2.2 d hd)
      | succ i2 =>
        rw [List.getD_cons_succ] at hv
        rcases ih (completed ++ ready_nodes g completed) i2 v hv d hd with h | ⟨j, hj1, hj2⟩
        · rcases List.mem_append.mp h with h | h
          · exact Or.inl h
          · exact Or.inr ⟨0, by omega, by rw [List.getD_cons_zero]; exact h⟩
        · exact Or.inr ⟨j + 1, by omega, by rw [List.getD_cons_succ]; exact hj2⟩

theorem groups_loop_groups_ne (g : TaskGraph) :
    ∀ (fuel : Nat) (completed : List String) (G : List String),
      G ∈ groups_loop g fuel completed → G ≠ [] := by
  intro fuel
  induction fuel with
  | zero => intro c G hG; simp [groups_loop] at hG
  | succ fuel ih =>
    intro c G hG
    cases hready : (ready_nodes g c).isEmpty with
    | true => simp [groups_loop, hready] at hG
    | false =>
      simp only [groups_loop, hready, Bool.false_eq_true, if_false, List.mem_cons] at hG
      rcases hG with h | h
      · subst h
        intro h0
        rw [h0] at hready
        simp at hready
      · exact ih _ G h

theorem groups_loop_succ_dep (g : TaskGraph) :
    ∀ (fuel : Nat) (completed : List String) (i : Nat) (v : String),
      v ∈ (groups_loop g fuel completed).getD (i + 1) [] →
      ∃ d ∈ g.deps v, d ∈ (groups_loop g fuel completed).getD i [] := by
  intro fuel
  induction fuel with
  | zero => intro c i v hv; simp [groups_loop] at hv
  | succ fuel ih =>
    intro c i v hv
    cases hready : (ready_nodes g c).isEmpty with
    | true => exfalso; simp [groups_loop, hready] at hv
    | false =>
      simp only [groups_loop, hready, Bool.false_eq_true, if_false] at hv ⊢
      cases i with
      | zero =>
        rw [List.getD_cons_succ] at hv
        rw [List.getD_cons_zero]
        cases fuel with
        | zero => exfalso; simp [groups_loop] at hv
        | succ fuel2 =>
          cases hready2 : (ready_nodes g (c ++ ready_nodes g c)).isEmpty with
          | true => exfalso; simp [groups_loop, hready2] at hv
          | false =>
            simp only [groups_loop, hready2, Bool.false_eq_true, if_false] at hv
            rw [List.getD_cons_zero] at hv
            have hv2 := mem_ready_nodes.mp hv
            have hvnr : v ∉ ready_nodes g c := fun hmem =>
              hv2.2.1 (List.mem_append_right _ hmem)
            by_contra hcon
            push_neg at hcon
            apply hvnr
            rw [mem_ready_nodes]
            refine ⟨hv2.1, fun hc => hv2.2.1 (List.mem_append_left _ hc), ?_⟩
            intro d hd
            rcases List.mem_append.mp (hv2.2.2 d hd) with h | h
            · exact h
            · exact absurd h (hcon d hd)
      | succ i2 =>
        rw [List.getD_cons_succ] at hv
        obtain ⟨d, hd1, hd2⟩ := ih (c ++ ready_nodes g c) i2 v hv
        exact ⟨d, hd1, by rw [List.getD_cons_succ]; exact hd2⟩

theorem mem_getD_lt {L : List (List String)} {i : Nat} {v : String}
    (h : v ∈ L.getD i []) : i < L.length := by
  by_contra hc
  rw [List.getD_eq_default _ _ (by omega)] at h
  simp at h

theorem mem_getD_mem_flatten {L : List (List String)} {i : Nat} {v : String}
    (h : v ∈ L.getD i []) : v ∈ L.flatten := by
  have hi : i < L.length := mem_getD_lt h
  rw [List.getD_eq_getElem _ _ hi] at h
  exact List.mem_flatten.mpr ⟨L[i], List.getElem_mem hi, h⟩

theorem mem_flatten_exists_getD {L : List (List String)} {v : String}
    (h : v ∈ L.flatten) : ∃ i, v ∈ L.getD i [] := by
  obtain ⟨G, hG1, hG2⟩ := List.mem_flatten.mp h
  obtain ⟨n, hn⟩ := List.mem_iff_get.mp hG1
  refine ⟨n.1, ?_⟩
  rw [List.getD_eq_getElem _ _ n.2]
  rw [← List.get_eq_getElem, hn]
  exact hG2

theorem dep_chain_le_groups (g : TaskGraph) :
    ∀ (l : List String) (a : String) (i : Nat),
      dep_chain g (a :: l) = true →
      a ∈ (parallel_groups g).getD i [] →
      (a :: l).length ≤ i + 1 := by
  intro l
  induction l with
  | nil => intro a i h1 h2; simp
  | cons b l ih =>
    intro a i hchain hmem
    have hparts : (a ∈ g.nodes ∧ b ∈ g.deps a) ∧ dep_chain g (b :: l) = true := by
      simpa only [dep_chain, Bool.and_eq_true, decide_eq_true_eq] using hchain
    have hb := groups_loop_deps_earlier g (g.nodes.length + 1) [] i a hmem b hparts.1.2
    rcases hb with h | ⟨j, hj1, hj2⟩
    · simp at h
    · have := ih b j hparts.2 hj2
      simp only [List.length_cons] at this ⊢
      omega

theorem exists_chain_to_group (g : TaskGraph) :
    ∀ (i : Nat) (v : String), v ∈ (parallel_groups g).getD i [] →
      ∃ l, dep_chain g (v :: l) = true ∧ (v :: l).length = i + 1 := by
  intro i
  induction i with
  | zero =>
    intro v hv
    refine ⟨[], ?_, rfl⟩
    have hvn : v ∈ g.nodes :=
      (groups_loop_join_mem g _ [] v (mem_getD_mem_flatten hv)).1
    simp [dep_chain, hvn]
  | succ i ih =>
    intro v hv
    obtain ⟨d, hd1, hd2⟩ := groups_loop_succ_dep g _ [] i v hv
    obtain ⟨l, hl1, hl2⟩ := ih d hd2
    have hvn : v ∈ g.nodes :=
      (groups_loop_join_mem g _ [] v (mem_getD_mem_flatten hv)).1
    refine ⟨d :: l, ?_, ?_⟩
    · simp only [dep_chain, Bool.and_eq_true, decide_eq_true_eq]
      exact ⟨⟨hvn, hd1⟩, hl1⟩
    · simp only [List.length_cons] at hl2 ⊢
      omega

/-- C1: on a well-formed acyclic task graph, `parallel_groups` partitions
the nodes into successive levels — the concatenation of the levels holds
exactly the nodes, without repetition; every dependency of a level member
lies in a strictly earlier level; and the number of levels equals the
length (node count) of the longest dependency chain of the graph. -/
theorem parallel_groups_levels (g : TaskGraph) (hwf : g.WF)
    (hacy : ¬ has_cycle g) :
    ((parallel_groups g).flatten.Nodup
      ∧ ∀ v, v ∈ (parallel_groups g).flatten ↔ v ∈ g.nodes)
    ∧ (∀ i v, v ∈ (parallel_groups g).getD i [] →
        ∀ d ∈ g.deps v, ∃ j < i, d ∈ (parallel_groups g).getD j [])
    ∧ (∀ l, dep_chain g l = true → l.length ≤ (parallel_groups g).length)
    ∧ (∃ l, dep_chain g l = true ∧ l.length = (parallel_groups g).length) := by
  refine ⟨⟨groups_loop_join_nodup g hwf.nodup _ [], ?_⟩, ?_, ?_, ?_⟩
  · intro v
    constructor
    · intro h
      exact (groups_loop_join_mem g _ [] v h).1
    · intro h
      exact groups_loop_covers g hwf hacy _ [] (by simp) (by simp)
        (by simp) v h (by simp)
  · intro i v hv d hd
    rcases groups_loop_deps_earlier g _ [] i v hv d hd with h | h
    · simp at h
    · exact h
  · intro l hl
    cases l with
    | nil => simp
    | cons a l2 =>
      have ha : a ∈ g.nodes := by
        cases l2 with
        | nil => simpa [dep_chain] using hl
        | cons b l3 =>
          simp only [dep_chain, Bool.and_eq_true, decide_eq_true_eq] at hl
          exact hl.1.1
      have hflat : a ∈ (parallel_groups g).flatten :=
        groups_loop_covers g hwf hacy _ [] (by simp) (by simp) (by simp) a ha (by simp)
      obtain ⟨i, hi⟩ := mem_flatten_exists_getD hflat
      have hle := dep_chain_le_groups g l2 a i hl hi
      have hlt := mem_getD_lt hi
      calc (a :: l2).length ≤ i + 1 := hle
        _ ≤ (parallel_groups g).length := by omega
  · cases hlen : (parallel_groups g).length with
    | zero => exact ⟨[], rfl, by simp [hlen]⟩
    | succ n =>
      have hn : n < (parallel_groups g).length := by omega
      have hGmem : (parallel_groups g).get ⟨n, hn⟩ ∈ parallel_groups g :=
        List.get_mem _ _ _
      have hne := groups_loop_groups_ne g _ [] _ hGmem
      obtain ⟨v, hv⟩ := List.exists_mem_of_ne_nil _ hne
      have hvgetD : v ∈ (parallel_groups g).getD n [] := by
        rw [List.getD_eq_getElem _ _ hn]
        simpa [List.get_eq_getElem] using hv
      obtain ⟨l, hl1, hl2⟩ := exists_chain_to_group g n v hvgetD
      exact ⟨v :: l, hl1, by omega⟩

/-- Witness for C1 at the diamond graph `a, b → c` (the repository's own
test case): two levels, matching the longest chain `a → c`. -/
theorem parallel_groups_levels_witness :
    (∃ l, dep_chain diamond l = true ∧ l.length = (parallel_groups diamond).length)
    ∧ parallel_groups diamond = [["a", "b"], ["c"]] :=
  ⟨(parallel_groups_levels diamond ⟨by decide, by decide⟩
      (rank_acyclic diamond diamond_rank (by decide))).2.2.2, by decide⟩

/-! String and lookup lemmas for C8. -/

theorem string_append_left_inj (p a b : String) : p ++ a = p ++ b ↔ a = b := by
  constructor
  · intro h
    have hd := congrArg String.data h
    simp only [String.data_append] at hd
    exact String.ext (List.append_cancel_left hd)
  · intro h
    rw [h]

theorem lookup_pfx_skip (p a b : String) (hab : a ≠ b) (v : String)
    (rest : List (String × String)) :
    List.lookup (p ++ a) ((p ++ b, v) :: rest) = List.lookup (p ++ a) rest := by
  have hne : (p ++ a == p ++ b) = false := by
    rw [beq_eq_false_iff_ne]
    intro h
    exact hab ((string_append_left_inj p a b).mp h)
  simp [List.lookup, hne]

theorem lookup_pfx_hit (p a : String) (v : String) (rest : List (String × String)) :
    List.lookup (p ++ a) ((p ++ a, v) :: rest) = some v := by
  simp [List.lookup]

theorem mem_of_getLast?_eq {l : List Char} {c : Char} (h : l.getLast? = some c) :
    c ∈ l := by
  rw [← List.head?_reverse] at h
  have hm : c ∈ l.reverse := by
    cases hrev : l.reverse with
    | nil => rw [hrev] at h; simp at h
    | cons a rest =>
      rw [hrev] at h
      simp only [List.head?_cons, Option.some.injEq] at h
      rw [← h]
      exact List.mem_cons_self _ _
  simpa [List.mem_reverse] using hm

theorem trim_end_slashes_append_slash (s : String)
    (h : ∀ c, s.data.getLast? = some c → c ≠ '/') :
    trim_end_slashes (s ++ "/") = s := by
  have hfix : s.data.reverse.dropWhile (fun c => decide (c = '/')) = s.data.reverse := by
    cases hrev : s.data.reverse with
    | nil => simp
    | cons c rest =>
      have hc : s.data.getLast? = some c := by
        rw [← List.head?_reverse, hrev]
        rfl
      rw [List.dropWhile_cons]
      simp [h c hc]
  unfold trim_end_slashes
  have hdata : (s ++ "/").data = s.data ++ ['/'] := by
    simp [String.data_append]
  rw [hdata, List.reverse_append]
  have hstep : (['/'].reverse ++ s.data.reverse).dropWhile (fun c => decide (c = '/')) =
      s.data.reverse := by
    simp only [List.reverse_cons, List.reverse_nil, List.nil_append, List.singleton_append,
      List.dropWhile_cons]
    rw [if_pos (by decide)]
    exact hfix
  rw [hstep, List.reverse_reverse]

theorem digitChar_ne_slash (n : Nat) : Nat.digitChar n ≠ '/' := by
  by_cases h : n < 16
  · interval_cases n <;> decide
  · have h16 : Nat.digitChar n = '*' := by
      unfold Nat.digitChar
      repeat rw [if_neg (by omega)]
    rw [h16]
    decide

theorem toDigitsCore_ne_slash :
    ∀ (fuel n : Nat) (ds : List Char), (∀ c ∈ ds, c ≠ '/') →
      ∀ c ∈ Nat.toDigitsCore 10 fuel n ds, c ≠ '/' := by
  intro fuel
  induction fuel with
  | zero => intro n ds hds c hc; exact hds c hc
  | succ fuel ih =>
    intro n ds hds c hc
    unfold Nat.toDigitsCore at hc
    simp only [] at hc
    by_cases h0 : n / 10 = 0
    · rw [if_pos h0] at hc
      rcases List.mem_cons.mp hc with h | h
      · rw [h]; exact digitChar_ne_slash _
      · exact hds c h
    · rw [if_neg h0] at hc
      refine ih (n / 10) (Nat.digitChar (n % 10) :: ds) ?_ c hc
      intro x hx
      rcases List.mem_cons.mp hx with h | h
      · rw [h]; exact digitChar_ne_slash _
      · exact hds x h

theorem nat_toString_ne_slash (n : Nat) : ∀ c ∈ (toString n).data, c ≠ '/' := by
  intro c hc
  have hdata : (toString n).data = Nat.toDigitsCore 10 (n + 1) n [] := rfl
  rw [hdata] at hc
  exact toDigitsCore_ne_slash (n + 1) n [] (by simp) c hc

/-- The tunneled base URL computed by env.rs in closed form: the scheme at
`127.0.0.1`, with the local port rendered only when it is not the scheme's
default (the url crate clears default ports). -/
theorem tunneled_base_eq (u : Url) (lp : Nat) :
    tunneled_base u lp = u.scheme ++ "://127.0.0.1" ++
      (if lp = default_port u.scheme then "" else ":" ++ toString lp) := by
  have hmerge : ∀ s : String, s ++ "://" ++ "127.0.0.1" = s ++ "://127.0.0.1" := by
    intro s
    rw [String.append_assoc]
    rfl
  by_cases hlp : lp = default_port u.scheme
  · have hrender : Url.render (((u.set_host "127.0.0.1").set_port lp).set_path_empty) =
        u.scheme ++ "://" ++ "127.0.0.1" ++ "" ++ "/" := by
      simp only [Url.set_host, Url.set_port, Url.set_path_empty, Url.render, Url.port_suffix,
        if_pos hlp]
    rw [show u.scheme ++ "://" ++ "127.0.0.1" ++ "" ++ "/" =
        (u.scheme ++ "://127.0.0.1" ++ "") ++ "/" by rw [hmerge u.scheme]] at hrender
    have hlast : ∀ c, (u.scheme ++ "://127.0.0.1" ++ "").data.getLast? = some c → c ≠ '/' := by
      intro c hc
      have h1 : (u.scheme ++ "://127.0.0.1" ++ "").data.getLast? = some '1' := by
        simp only [String.data_append, List.getLast?_append]
        rfl
      rw [h1] at hc
      injection hc with h2
      rw [← h2]
      decide
    unfold tunneled_base
    rw [hrender, trim_end_slashes_append_slash _ hlast, if_pos hlp]
  · have hrender : Url.render (((u.set_host "127.0.0.1").set_port lp).set_path_empty) =
        u.scheme ++ "://" ++ "127.0.0.1" ++ (":" ++ toString lp) ++ "/" := by
      simp only [Url.set_host, Url.set_port, Url.set_path_empty, Url.render, Url.port_suffix,
        if_neg hlp]
    rw [show u.scheme ++ "://" ++ "127.0.0.1" ++ (":" ++ toString lp) ++ "/" =
        (u.scheme ++ "://127.0.0.1" ++ (":" ++ toString lp)) ++ "/" by
      rw [hmerge u.scheme]] at hrender
    have hlast : ∀ c,
        (u.scheme ++ "://127.0.0.1" ++ (":" ++ toString lp)).data.getLast? = some c →
          c ≠ '/' := by
      intro c hc
      simp only [String.data_append, List.getLast?_append] at hc
      cases hrep : (toString lp).data.getLast? with
      | none =>
        rw [hrep] at hc
        simp only [Option.or] at hc
        injection hc with h2
        rw [← h2]
        decide
      | some d =>
        rw [hrep] at hc
        simp only [Option.or] at hc
        injection hc with h2
        rw [← h2]
        exact nat_toString_ne_slash lp d (mem_of_getLast?_eq hrep)
    unfold tunneled_base
    rw [hrender, trim_end_slashes_append_slash _ hlast, if_neg hlp]

/-- C8 (amended): for a service with an HTTP or TCP readiness check, the
consumer env vars are — with an active tunnel: `_HOST = 127.0.0.1`, `_PORT`
the allocated local port, and for HTTP checks `_URL`/`_BASE_URL` rewritten
to `http[s]://127.0.0.1:<local_port>` EXCEPT that when the local port
equals the scheme's default (80/443) the url library omits the `:<port>`
part; without a tunnel: the original host, the explicit-or-default port,
and (HTTP only) the scheme-qualified base URL of the readiness check. -/
theorem service_env_vars_tunnel_rewrite (name : String) (kind : ServiceKind)
    (u : Url) (hwf : u.WF) (host : String) (port local_port : Nat) :
    ((service_env_vars name kind (some (.http u)) (some local_port)).lookup
        ("DAGRUN_SVC_" ++ upper_snake name ++ "_HOST") = some "127.0.0.1"
      ∧ (service_env_vars name kind (some (.http u)) (some local_port)).lookup
          ("DAGRUN_SVC_" ++ upper_snake name ++ "_PORT") = some (toString local_port)
      ∧ (service_env_vars name kind (some (.http u)) (some local_port)).lookup
          ("DAGRUN_SVC_" ++ upper_snake name ++ "_URL") =
            some (u.scheme ++ "://127.0.0.1" ++
              (if local_port = default_port u.scheme then ""
               else ":" ++ toString local_port))
      ∧ (service_env_vars name kind (some (.http u)) (some local_port)).lookup
          ("DAGRUN_SVC_" ++ upper_snake name ++ "_BASE_URL") =
            some (u.scheme ++ "://127.0.0.1" ++
              (if local_port = default_port u.scheme then ""
               else ":" ++ toString local_port)))
    ∧ ((service_env_vars name kind (some (.tcp host port)) (some local_port)).lookup
        ("DAGRUN_SVC_" ++ upper_snake name ++ "_HOST") = some "127.0.0.1"
      ∧ (service_env_vars name kind (some (.tcp host port)) (some local_port)).lookup
          ("DAGRUN_SVC_" ++ upper_snake name ++ "_PORT") = some (toString local_port)
      ∧ (service_env_vars name kind (some (.tcp host port)) (some local_port)).lookup
          ("DAGRUN_SVC_" ++ upper_snake name ++ "_URL") = none)
    ∧ ((service_env_vars name kind (some (.http u)) none).lookup
        ("DAGRUN_SVC_" ++ upper_snake name ++ "_HOST") = some u.host
      ∧ (service_env_vars name kind (some (.http u)) none).lookup
          ("DAGRUN_SVC_" ++ upper_snake name ++ "_PORT") =
            some (toString (u.port.getD (if u.scheme = "https" then 443 else 80)))
      ∧ (service_env_vars name kind (some (.http u)) none).lookup
          ("DAGRUN_SVC_" ++ upper_snake name ++ "_URL") =
            some (u.scheme ++ "://" ++ u.host ++ u.port_suffix)
      ∧ (service_env_vars name kind (some (.http u)) none).lookup
          ("DAGRUN_SVC_" ++ upper_snake name ++ "_BASE_URL") =
            some (u.scheme ++ "://" ++ u.host ++ u.port_suffix))
    ∧ ((service_env_vars name kind (some (.tcp host port)) none).lookup
        ("DAGRUN_SVC_" ++ upper_snake name ++ "_HOST") = some host
      ∧ (service_env_vars name kind (some (.tcp host port)) none).lookup
          ("DAGRUN_SVC_" ++ upper_snake name ++ "_PORT") = some (toString port)
      ∧ (service_env_vars name kind (some (.tcp host port)) none).lookup
          ("DAGRUN_SVC_" ++ upper_snake name ++ "_URL") = none) := by
  set pfx := "DAGRUN_SVC_" ++ upper_snake name with hpfx
  have hhttpt : service_env_vars name kind (some (.http u)) (some local_port) =
      [(pfx ++ "_READY", "1"), (pfx ++ "_KIND", kind_str kind),
       (pfx ++ "_HOST", "127.0.0.1"), (pfx ++ "_PORT", toString local_port),
       (pfx ++ "_URL", tunneled_base u local_port),
       (pfx ++ "_BASE_URL", tunneled_base u local_port)] := by
    simp [service_env_vars, String.append_assoc, hpfx]
  have htcpt : service_env_vars name kind (some (.tcp host port)) (some local_port) =
      [(pfx ++ "_READY", "1"), (pfx ++ "_KIND", kind_str kind),
       (pfx ++ "_HOST", "127.0.0.1"), (pfx ++ "_PORT", toString local_port)] := by
    simp [service_env_vars, String.append_assoc, hpfx]
  have hhttpn : service_env_vars name kind (some (.http u)) none =
      [(pfx ++ "_READY", "1"), (pfx ++ "_KIND", kind_str kind),
       (pfx ++ "_HOST", u.host),
       (pfx ++ "_PORT", toString (u.port.getD (if u.scheme = "https" then 443 else 80))),
       (pfx ++ "_URL", u.scheme ++ "://" ++ u.host ++ u.port_suffix),
       (pfx ++ "_BASE_URL", u.scheme ++ "://" ++ u.host ++ u.port_suffix)] := by
    simp [service_env_vars, ReadinessCheck.host_port, ReadinessCheck.base_url,
      String.append_assoc, hpfx]
  have htcpn : service_env_vars name kind (some (.tcp host port)) none =
      [(pfx ++ "_READY", "1"), (pfx ++ "_KIND", kind_str kind),
       (pfx ++ "_HOST", host), (pfx ++ "_PORT", toString port)] := by
    simp [service_env_vars, ReadinessCheck.host_port, ReadinessCheck.base_url,
      String.append_assoc, hpfx]
  refine ⟨⟨?_, ?_, ?_, ?_⟩, ⟨?_, ?_, ?_⟩, ⟨?_, ?_, ?_, ?_⟩, ⟨?_, ?_, ?_⟩⟩
  · rw [hhttpt, lookup_pfx_skip _ _ _ (by decide), lookup_pfx_skip _ _ _ (by decide),
      lookup_pfx_hit]
  · rw [hhttpt, lookup_pfx_skip _ _ _ (by decide), lookup_pfx_skip _ _ _ (by decide),
      lookup_pfx_skip _ _ _ (by decide), lookup_pfx_hit]
  · rw [hhttpt, lookup_pfx_skip _ _ _ (by decide), lookup_pfx_skip _ _ _ (by decide),
      lookup_pfx_skip _ _ _ (by decide), lookup_pfx_skip _ _ _ (by decide),
      lookup_pfx_hit, tunneled_base_eq]
  · rw [hhttpt, lookup_pfx_skip _ _ _ (by decide), lookup_pfx_skip _ _ _ (by decide),
      lookup_pfx_skip _ _ _ (by decide), lookup_pfx_skip _ _ _ (by decide),
      lookup_pfx_skip _ _ _ (by decide), lookup_pfx_hit, tunneled_base_eq]
  · rw [htcpt, lookup_pfx_skip _ _ _ (by decide), lookup_pfx_skip _ _ _ (by decide),
      lookup_pfx_hit]
  · rw [htcpt, lookup_pfx_skip _ _ _ (by decide), lookup_pfx_skip _ _ _ (by decide),
      lookup_pfx_skip _ _ _ (by decide), lookup_pfx_hit]
  · rw [htcpt, lookup_pfx_skip _ _ _ (by decide), lookup_pfx_skip _ _ _ (by decide),
      lookup_pfx_skip _ _ _ (by decide), lookup_pfx_skip _ _ _ (by decide)]
    rfl
  · rw [hhttpn, lookup_pfx_skip _ _ _ (by decide), lookup_pfx_skip _ _ _ (by decide),
      lookup_pfx_hit]
  · rw [hhttpn, lookup_pfx_skip _ _ _ (by decide), lookup_pfx_skip _ _ _ (by decide),
      lookup_pfx_skip _ _ _ (by decide), lookup_pfx_hit]
  · rw [hhttpn, lookup_pfx_skip _ _ _ (by decide), lookup_pfx_skip _ _ _ (by decide),
      lookup_pfx_skip _ _ _ (by decide), lookup_pfx_skip _ _ _ (by decide),
      lookup_pfx_hit]
  · rw [hhttpn, lookup_pfx_skip _ _ _ (by decide), lookup_pfx_skip _ _ _ (by decide),
      lookup_pfx_skip _ _ _ (by decide), lookup_pfx_skip _ _ _ (by decide),
      lookup_pfx_skip _ _ _ (by decide), lookup_pfx_hit]
  · rw [htcpn, lookup_pfx_skip _ _ _ (by decide), lookup_pfx_skip _ _ _ (by decide),
      lookup_pfx_hit]
  · rw [htcpn, lookup_pfx_skip _ _ _ (by decide), lookup_pfx_skip _ _ _ (by decide),
      lookup_pfx_skip _ _ _ (by decide), lookup_pfx_hit]
  · rw [htcpn, lookup_pfx_skip _ _ _ (by decide), lookup_pfx_skip _ _ _ (by decide),
      lookup_pfx_skip _ _ _ (by decide), lookup_pfx_skip _ _ _ (by decide)]
    rfl

/-- Witness for C8 at `http://svc:8080/health` tunneled through local port
9090: the rewritten URL carries the local port. -/
theorem service_env_vars_tunnel_rewrite_witness :
    (service_env_vars "api" .managed (some (.http health_url)) (some 9090)).lookup
        ("DAGRUN_SVC_" ++ upper_snake "api" ++ "_URL") = some "http://127.0.0.1:9090" :=
  (service_env_vars_tunnel_rewrite "api" .managed health_url
      ⟨Or.inl rfl, by intro p hp; injection hp with h; rw [← h]; decide⟩ "svc" 8080 9090).1.2.2.1

/-- Counterexample to C8 as stated: with the tunnel's local port equal to
the scheme's default (80 for http), the url library drops the port from the
serialization — `_URL` is `http://127.0.0.1`, not `http://127.0.0.1:80`. -/
theorem service_env_vars_default_port_counterexample :
    (service_env_vars "api" .managed (some (.http health_url)) (some 80)).lookup
        "DAGRUN_SVC_API_URL" = some "http://127.0.0.1"
    ∧ some "http://127.0.0.1" ≠ some ("http://127.0.0.1:" ++ toString 80) := by
  exact ⟨rfl, by decide⟩

/-! Lemmas for C9. -/

theorem char_ofNat_toNat_of_valid (n : Nat) (h : n.isValidChar) :
    (Char.ofNat n).toNat = n := by
  unfold Char.ofNat
  rw [dif_pos h]
  rfl

theorem toLower_toNat_lt (c : Char) (h : c.toNat < 128) :
    c.toLower.toNat < 128 := by
  unfold Char.toLower
  dsimp only
  split_ifs with hc
  · rw [char_ofNat_toNat_of_valid _ (Or.inl (by omega))]
    omega
  · exact h

theorem utf8_len_ascii (c : Char) (h : c.toNat < 128) : utf8_len c = 1 := by
  unfold utf8_len
  rw [if_pos (by omega)]

theorem byte_len_ascii : ∀ (l : List Char), (∀ c ∈ l, c.toNat < 128) →
    byte_len l = l.length := by
  intro l
  induction l with
  | nil => intro _; rfl
  | cons c l ih =>
    intro h
    have h1 := utf8_len_ascii c (h c (List.mem_cons_self _ _))
    have h2 := ih (fun x hx => h x (List.mem_cons_of_mem _ hx))
    simp only [byte_len, List.map_cons, List.sum_cons, List.length_cons] at h2 ⊢
    omega

theorem take_bytes_ascii : ∀ (n : Nat) (l : List Char), (∀ c ∈ l, c.toNat < 128) →
    n ≤ l.length → take_bytes n l = some (l.take n) := by
  intro n
  induction n with
  | zero => intro l _ _; simp [take_bytes]
  | succ n ih =>
    intro l h hlen
    cases l with
    | nil => simp at hlen
    | cons c l2 =>
      have h1 := utf8_len_ascii c (h c (List.mem_cons_self _ _))
      simp only [take_bytes, h1]
      rw [if_pos (by omega)]
      have hsub : n + 1 - 1 = n := rfl
      rw [hsub, ih l2 (fun x hx => h x (List.mem_cons_of_mem _ hx)) (by simpa using hlen)]
      simp

theorem mem_trim_trailing {l : List Char} {c : Char}
    (h : c ∈ trim_trailing_dashes l) : c ∈ l := by
  unfold trim_trailing_dashes at h
  rw [List.mem_reverse] at h
  have h2 := (List.dropWhile_sublist _).subset h
  simpa [List.mem_reverse] using h2

theorem mem_trim_dashes {l : List Char} {c : Char} (h : c ∈ trim_dashes l) :
    c ∈ l := by
  unfold trim_dashes at h
  exact (List.dropWhile_sublist _).subset (mem_trim_trailing h)

theorem sanitize_chars_ascii {l : List Char} (h : ∀ c ∈ l, c.toNat < 128) :
    ∀ c ∈ sanitize_chars l, c.toNat < 128 := by
  intro c hc
  unfold sanitize_chars at hc
  obtain ⟨a, ha, hfa⟩ := List.mem_map.mp hc
  have hla : (rust_lower_char a).toNat < 128 := toLower_toNat_lt a (h a ha)
  rw [← hfa]
  dsimp only
  split_ifs with hcase
  · exact hla
  · decide

/-- On ASCII inputs the code's byte-based sanitization agrees with the
character-based sanitization of the spec. -/
theorem sanitize_k8s_name_ascii (s : List Char) (h : all_ascii s = true) :
    sanitize_k8s_name s = some (sanitize_spec s) := by
  have hasc : ∀ c ∈ s, c.toNat < 128 := by
    intro c hc
    simpa using List.all_eq_true.mp h c hc
  have htr : ∀ c ∈ trim_dashes (sanitize_chars s), c.toNat < 128 :=
    fun c hc => sanitize_chars_ascii hasc c (mem_trim_dashes hc)
  simp only [sanitize_k8s_name, sanitize_spec]
  rw [byte_len_ascii _ htr]
  by_cases hlen : 50 < (trim_dashes (sanitize_chars s)).length
  · rw [if_pos hlen, if_pos hlen, take_bytes_ascii 50 _ htr (by omega)]
    rfl
  · rw [if_neg hlen, if_neg hlen]

theorem sanitize_spec_le_50 (s : List Char) : (sanitize_spec s).length ≤ 50 := by
  unfold sanitize_spec
  by_cases hlen : 50 < (trim_dashes (sanitize_chars s)).length
  · rw [if_pos hlen]
    have h1 : (trim_trailing_dashes ((trim_dashes (sanitize_chars s)).take 50)).length ≤
        ((trim_dashes (sanitize_chars s)).take 50).length := by
      unfold trim_trailing_dashes
      simp only [List.length_reverse]
      exact le_trans (List.Sublist.length_le (List.dropWhile_sublist _)) (by simp)
    have h2 : ((trim_dashes (sanitize_chars s)).take 50).length ≤ 50 := by
      simp [List.length_take]
    omega
  · rw [if_neg hlen]
    omega

/-- C9 (amended): for ASCII task names the generated Job name is
`sanitize(task_name)-<6-char suffix>`, where sanitize lowercases, maps
non-alphanumerics to `-`, trims outer `-`s, and truncates to at most 50
pre-suffix characters.  The function is NOT total, however: the 50-cut is
a byte slice, and it panics when byte 50 falls inside a multi-byte
character kept by the Unicode-aware alphanumeric check. -/
theorem generate_job_name_ascii (task_name suffix : List Char)
    (h : all_ascii task_name = true) :
    generate_job_name task_name suffix =
      some (sanitize_spec task_name ++ '-' :: suffix)
    ∧ (sanitize_spec task_name).length ≤ 50 := by
  refine ⟨?_, sanitize_spec_le_50 task_name⟩
  unfold generate_job_name
  rw [sanitize_k8s_name_ascii task_name h]
  rfl

/-- Witness for C9 on the ASCII name `My_Task.01` with suffix `a1b2c3`. -/
theorem generate_job_name_ascii_witness :
    all_ascii ascii_name_fixture = true
    ∧ generate_job_name ascii_name_fixture suffix_fixture =
        some "my-task-01-a1b2c3".data :=
  ⟨by decide, (generate_job_name_ascii ascii_name_fixture suffix_fixture (by decide)).1⟩

/-- Counterexample to C9's totality as stated: one ASCII letter followed by
25 `é`s sanitizes to 51 bytes, and the 50-byte cut falls inside the last
`é` — the Rust slice panics, modeled as `none`. -/
theorem sanitize_k8s_name_panic_counterexample :
    sanitize_k8s_name latin1_name_fixture = none
    ∧ generate_job_name latin1_name_fixture suffix_fixture = none := by
  exact ⟨by decide, by decide⟩

end Dagrun
